import Mathlib

/-!
# WebPythonIDE: project file store and run orchestrator

A shallow embedding of `src/app.js`: the module-level variables `files` and
`currentFile`, the `app` object (`editor`, `pyodide`) and the parts of the browser
the handlers touch (the `localStorage` slot, the console pane, the dialogs, the
file list, the sidebar, the visible view and the pending timers) are gathered in
one `State` record; every method of `app` is a function on that record.

Modelling conventions.

* A JavaScript object used as a dictionary is a list of own properties in creation
  order (`Dict`). `Dict.keys` is `Object.keys`: array-index keys first in ascending
  numeric order, then the other keys in creation order.
* `files` is a plain object, so it inherits from `Object.prototype`. The read
  `files[k]` (`Dict.read`) finds an inherited function or object when `k` is one of the
  names of `Object.prototype` and no own property hides it, and the assignment
  `files[k] = v` (`Dict.assign`) creates no own property for `k = "__proto__"`, whose
  inherited setter ignores a string.
* `currentFile` can hold `undefined` (`loadFile(Object.keys(files)[0])` on an empty
  object), so it is an `Option String`; used as a property key or inside a template
  string it reads `"undefined"`.
* The CodeMirror document holds lines: text put into it is split at `\r\n`, `\r` and
  `\n`, and `editor.state.doc.toString()` joins the lines with `\n`
  (`normalizeNewlines`). An `undefined` insert leaves the document empty. What the
  library does with an insert that is neither is not fixed by `app.js`; the handler
  then ends as `Completion.unspecified`.
* `confirm` and `prompt` are answered by an argument of the handler, and every dialog
  shown is recorded in `State.dialogs`.
* A `TypeError` raised by dereferencing `this.editor` when it is `null`, or an error
  thrown by `FS.writeFile`, ends the handler (`Completion.abrupt`) with the state
  reached so far.
* The engine is an external object: the handle carries its filesystem state and the
  methods `writeFile` and `readFile` acting on it. Nothing is assumed about them in
  the definitions; theorems state what they need as hypotheses.
* A stored string is represented by what `JSON.parse` makes of it (`Stored`).
-/

namespace WebPythonIDE

/-! ## Dictionaries -/

/-- A JavaScript object with string values: its own properties, in creation order. -/
abbrev Dict := List (String × String)

/-- Value of a run of decimal digits, `none` when a character is not a digit. -/
def digitsValue : List Char → Nat → Option Nat
  | [], acc => some acc
  | c :: cs, acc =>
    if 48 ≤ c.toNat ∧ c.toNat ≤ 57 then digitsValue cs (acc * 10 + (c.toNat - 48)) else none

/-- The array index a property key denotes, if any: a canonical decimal numeral
below `2^32 - 1`. -/
def arrayIndex (k : String) : Option Nat :=
  match k.data with
  | [] => none
  | c :: cs =>
    if c = '0' ∧ cs ≠ [] then none
    else
      match digitsValue (c :: cs) 0 with
      | some n => if n < 4294967295 then some n else none
      | none => none

/-- What a read `files[k]` can produce. -/
inductive JsValue where
  | undefined
  | str (s : String)
  | inherited
  deriving DecidableEq, Repr

/-- The property names of `Object.prototype`. -/
def inheritedNames : List String :=
  ["constructor", "__defineGetter__", "__defineSetter__", "hasOwnProperty",
    "__lookupGetter__", "__lookupSetter__", "isPrototypeOf", "propertyIsEnumerable",
    "toString", "valueOf", "__proto__", "toLocaleString"]

namespace Dict

/-- The own property `k` of `d`, `none` when there is none. -/
def get : Dict → String → Option String
  | [], _ => none
  | (k', v) :: d, k => if k' = k then some v else get d k

/-- Defining the own property `k`: an existing property keeps its place, a new one is
created last. -/
def set : Dict → String → String → Dict
  | [], k, v => [(k, v)]
  | (k', v') :: d, k, v => if k' = k then (k, v) :: d else (k', v') :: set d k v

/-- The read `d[k]`: the own property, else what `Object.prototype` holds under `k`. -/
def read (d : Dict) (k : String) : JsValue :=
  match d.get k with
  | some v => .str v
  | none => if k ∈ inheritedNames then .inherited else .undefined

/-- The assignment `d[k] = v` of a string: it defines the own property `k`, except that
for `k = "__proto__"` without an own property the inherited setter runs and changes
nothing. -/
def assign (d : Dict) (k v : String) : Dict :=
  if k = "__proto__" ∧ d.get k = none then d else d.set k v

/-- The statement `delete d[k]`. -/
def delete (d : Dict) (k : String) : Dict :=
  d.filter (fun p => p.1 ≠ k)

/-- The call `Object.keys(d)`. -/
def keys (d : Dict) : List String :=
  let ks := d.map Prod.fst
  (ks.filter (fun k => (arrayIndex k).isSome)).insertionSort
      (fun a b => (arrayIndex a).getD 0 ≤ (arrayIndex b).getD 0)
    ++ ks.filter (fun k => (arrayIndex k).isNone)

/-- The own properties of `d` with their values, in the order of `Object.keys(d)`. -/
def entries (d : Dict) : List (String × String) :=
  (keys d).filterMap (fun k => (d.get k).map (fun v => (k, v)))

end Dict

/-- JavaScript truthiness of the read `files[name]`. -/
def truthy : JsValue → Bool
  | .undefined => false
  | .str v => v ≠ ""
  | .inherited => true

/-! ## Editor text -/

/-- Splitting at `\r\n`, `\r` and `\n` and joining with `\n`, on characters; the flag
tells that the previous character was `\r`. -/
def normalizeChars : Bool → List Char → List Char
  | _, [] => []
  | afterCR, c :: cs =>
    if c = '\r' then '\n' :: normalizeChars true cs
    else if c = '\n' ∧ afterCR = true then normalizeChars false cs
    else c :: normalizeChars false cs

/-- The text of a CodeMirror document made from `text`. -/
def normalizeNewlines (text : String) : String :=
  String.mk (normalizeChars false text.data)

/-! ## Stored data -/

/-- A JSON value. Numbers are kept as integers; only whether one is zero matters here. -/
inductive Json where
  | null
  | bool (b : Bool)
  | num (n : Int)
  | str (s : String)
  | arr (items : List Json)
  | obj (members : List (String × Json))

/-- JavaScript truthiness of a parsed value. -/
def Json.truthy : Json → Bool
  | .null => false
  | .bool b => b
  | .num n => n ≠ 0
  | .str s => s ≠ ""
  | .arr _ => true
  | .obj _ => true

/-- The own member `k` of a parsed object. -/
def Json.member : Json → String → Option Json
  | .obj members, k => (members.find? (fun m => m.1 = k)).map Prod.snd
  | _, _ => none

/-- A string held in the storage slot, seen through `JSON.parse`. -/
inductive Stored where
  | malformed
  | json (v : Json)

/-- The exception `JSON.parse` raises. -/
inductive JsError where
  | syntaxError
  deriving DecidableEq, Repr

/-- The call `JSON.parse(localStorage.getItem(..))`; an absent key gives `null`, which
parses to `null`. -/
def parseSlot : Option Stored → Except JsError Json
  | none => .ok .null
  | some .malformed => .error .syntaxError
  | some (.json v) => .ok v

/-- The call `JSON.stringify(d)`, as the stored string it produces. -/
def stringify (d : Dict) : Stored :=
  .json (.obj ((Dict.entries d).map (fun e => (e.1, Json.str e.2))))

/-- The content of the built-in `main.py`. -/
def defaultContent : String :=
  "# Master Python IDE\n\n# 1. Type \"print\"\n# 2. Type \"def\"\n# 3. Hit Run\n\nprint(\"Ready to code.\")"

/-- The constant `defaultFiles`. -/
def defaultFiles : Dict := [("main.py", defaultContent)]

/-- The constant `defaultFiles` as a JavaScript value. -/
def defaultFilesValue : Json := .obj [("main.py", .str defaultContent)]

/-- The initialiser of `files`:
`JSON.parse(localStorage.getItem(..)) || defaultFiles`. -/
def loadFiles (slot : Option Stored) : Except JsError Json :=
  match parseSlot slot with
  | .error e => .error e
  | .ok v => .ok (if v.truthy then v else defaultFilesValue)

/-! ## Application state -/

/-- One line of the console pane, with the two flags `log` receives. -/
structure ConsoleEntry where
  text : String
  isError : Bool
  isSystem : Bool
  deriving DecidableEq, Repr

/-- A blocking dialog shown to the user. -/
inductive Dialog where
  | confirm (message : String)
  | prompt (message : String)
  deriving DecidableEq, Repr

/-- The two views `switchView` chooses between. -/
inductive View where
  | editor
  | terminal
  deriving DecidableEq, Repr

/-- One row of the rendered file list. -/
structure FileItem where
  name : String
  active : Bool
  hasDelete : Bool
  deriving DecidableEq, Repr

/-- The engine handle `app.pyodide`: the state `FS` of its virtual filesystem and the
two methods used on it. `writeFile fs path text` is the filesystem after
`FS.writeFile(path, text)`, or `none` when the call throws (the filesystem is then left as
it was); `readFile fs path` is the text of the file at `path`, if there is one. -/
structure Pyodide where
  Store : Type
  FS : Store
  writeFile : Store → String → String → Option Store
  readFile : Store → String → Option String

/-- The handle after its filesystem moved to `fs`. -/
def Pyodide.withFS (py : Pyodide) (fs : py.Store) : Pyodide :=
  { Store := py.Store, FS := fs, writeFile := py.writeFile, readFile := py.readFile }

/-- The text the engine holds at `path`. -/
def Pyodide.fileAt (py : Pyodide) (path : String) : Option String :=
  py.readFile py.FS path

/-- Everything the handlers of `app` read or write. -/
structure State where
  files : Dict
  currentFile : Option String
  editor : Option String
  pyodide : Option Pyodide
  localStorage : Option Stored
  console : List ConsoleEntry
  dialogs : List Dialog
  fileList : List FileItem
  currentFileName : String
  sidebarOpen : Bool
  view : View
  timers : Nat

/-- A value used as a property key or in a template string. -/
def jsString : Option String → String
  | some s => s
  | none => "undefined"

/-- How a handler ends: normally; by an exception that leaves the state as it was when
raised; or inside the editor library, on an insert that is not text. -/
inductive Completion where
  | normal (s : State)
  | abrupt (s : State)
  | unspecified (s : State)

/-- The state a handler leaves behind. -/
def Completion.state : Completion → State
  | .normal s => s
  | .abrupt s => s
  | .unspecified s => s

/-- Sequencing: the rest of the handler runs only after a normal completion. -/
def Completion.andThen : Completion → (State → Completion) → Completion
  | .normal s, f => f s
  | .abrupt s, _ => .abrupt s
  | .unspecified s, _ => .unspecified s

/-! ## The handlers of `app` -/

/-- The method `app.save`. -/
def save (s : State) : State :=
  match s.editor with
  | none => s
  | some doc =>
    let files := s.files.assign (jsString s.currentFile) doc
    { s with files := files, localStorage := some (stringify files) }

/-- The method `app.setEditorContent`. -/
def setEditorContent (content : JsValue) (s : State) : Completion :=
  match s.editor with
  | none => .abrupt s
  | some _ =>
    match content with
    | .str text => .normal { s with editor := some (normalizeNewlines text) }
    | .undefined => .normal { s with editor := some "" }
    | .inherited => .unspecified s

/-- The method `app.log`. -/
def log (text : String) (isError isSystem : Bool) (s : State) : State :=
  { s with console := s.console ++ [{ text := text, isError := isError, isSystem := isSystem }] }

/-- The method `app.renderFileList`. -/
def renderFileList (s : State) : State :=
  { s with
    fileList := (Dict.keys s.files).map (fun name =>
      { name := name, active := decide (some name = s.currentFile),
        hasDelete := decide (name ≠ "main.py") })
    currentFileName := jsString s.currentFile }

/-- The method `app.toggleSidebar`. -/
def toggleSidebar (s : State) : State :=
  { s with sidebarOpen := !s.sidebarOpen }

/-- The method `app.switchView`. -/
def switchView (view : View) (s : State) : State :=
  { s with view := view }

/-- The method `app.loadFile`. -/
def loadFile (name : Option String) (s : State) : Completion :=
  let s := save s
  let s := { s with currentFile := name }
  (setEditorContent (s.files.read (jsString name)) s).andThen fun s =>
    .normal (toggleSidebar (renderFileList s))

/-- The method `app.createNewFile`; `answer` is what `prompt` returns. -/
def createNewFile (answer : Option String) (s : State) : Completion :=
  let s := { s with dialogs := s.dialogs ++ [.prompt "File Name (e.g. data.py):"] }
  match answer with
  | none => .normal s
  | some name =>
    if name ≠ "" then
      let s := { s with files := s.files.assign name "# New File" }
      let s := save s
      loadFile (some name) s
    else .normal s

/-- The method `app.deleteFile`; `answer` is what `confirm` returns. -/
def deleteFile (name : String) (answer : Bool) (s : State) : Completion :=
  let s := { s with dialogs := s.dialogs ++ [.confirm ("Delete " ++ name ++ "?")] }
  if answer then
    let s := { s with files := s.files.delete name }
    let s := save s
    if s.currentFile = some name then loadFile (Dict.keys s.files).head? s
    else .normal (renderFileList s)
  else .normal s

/-- The `reader.onload` callback of `app.importFile` for a file called `name` whose
text is `content`; `answer` is what `confirm` returns if it is shown. -/
def importFileOnload (name content : String) (answer : Bool) (s : State) : Completion :=
  let proceed (s : State) : Completion :=
    let s := { s with files := s.files.assign name content }
    let s := save s
    (loadFile (some name) s).andThen fun s =>
      .normal (log (">> Imported " ++ name) false true s)
  if truthy (s.files.read name) then
    let s := { s with dialogs := s.dialogs ++ [.confirm ("Overwrite " ++ name ++ "?")] }
    if !answer then .normal s else proceed s
  else proceed s

/-- The loop `Object.keys(files).forEach(name => FS.writeFile(name, files[name]))` over
the entries of `files`: `.ok fs` when every call returned, `.error fs` when one threw,
with the filesystem reached by the calls before it. -/
def syncFiles (py : Pyodide) : List (String × String) → py.Store → Except py.Store py.Store
  | [], fs => .ok fs
  | (name, text) :: rest, fs =>
    match py.writeFile fs name text with
    | some fs' => syncFiles py rest fs'
    | none => .error fs

/-- The synchronous part of `app.runCode`, up to and including `setTimeout`. -/
def runCode (s : State) : Completion :=
  let s := save s
  let s := switchView .terminal s
  match s.pyodide with
  | none => .normal (log ">> Loading Engine..." true false s)
  | some py =>
    let s := log ">> Syncing Files..." false true s
    match syncFiles py (Dict.entries s.files) py.FS with
    | .error fs => .abrupt { s with pyodide := some (py.withFS fs) }
    | .ok fs =>
      let s := { s with pyodide := some (py.withFS fs) }
      let s := log (">> Running " ++ jsString s.currentFile ++ "...") false true s
      .normal { s with timers := s.timers + 1 }

/-! ## Sequences of file operations -/

/-- One call of a file operation, with the answer the user gives to its dialog. -/
inductive Action where
  | createNewFile (answer : Option String)
  | deleteFile (name : String) (answer : Bool)
  | loadFile (name : String)

/-- Performing one call. -/
def step : Action → State → Completion
  | .createNewFile answer, s => createNewFile answer s
  | .deleteFile name answer, s => deleteFile name answer s
  | .loadFile name, s => loadFile (some name) s

/-- Performing a sequence of calls, one handler after the other. -/
def runActions : List Action → State → Completion
  | [], s => .normal s
  | a :: rest, s => (step a s).andThen (runActions rest)

/-- The variable `currentFile` names an own property of `files`. -/
def activeIsKey (s : State) : Prop :=
  match s.currentFile with
  | some c => c ∈ Dict.keys s.files
  | none => False

instance (s : State) : Decidable (activeIsKey s) := by
  unfold activeIsKey
  split <;> infer_instance

/-- The project invariant: the editor exists, `files` is not empty and `currentFile`
is one of its keys. -/
def Inv (s : State) : Prop :=
  s.editor.isSome = true ∧ s.files ≠ [] ∧ activeIsKey s

instance (s : State) : Decidable (Inv s) := by
  unfold Inv
  infer_instance

/-- A call of `loadFile` names a file that exists when the call is made, and a call of
`createNewFile` is not answered `__proto__`; `deleteFile` is unrestricted. -/
def Action.admitted : Action → State → Prop
  | .loadFile name, s => name ∈ Dict.keys s.files
  | .createNewFile answer, _ => answer ≠ some "__proto__"
  | .deleteFile _ _, _ => True

instance (a : Action) (s : State) : Decidable (a.admitted s) := by
  cases a <;> unfold Action.admitted <;> infer_instance

/-- Every call of the sequence is admitted in the state in which it is made. -/
def Admitted : List Action → State → Prop
  | [], _ => True
  | a :: rest, s => a.admitted s ∧ Admitted rest (step a s).state

/-- Decision procedure for `Admitted`, following the sequence. -/
instance decAdmitted : (acts : List Action) → (s : State) → Decidable (Admitted acts s)
  | [], _ => isTrue trivial
  | a :: rest, s =>
    @instDecidableAnd _ _ _ (decAdmitted rest (step a s).state)

/-- A session showing `doc` for the file `active` of `files`, engine not loaded, nothing
stored or printed yet. -/
def session (files : Dict) (active doc : String) : State :=
  { files := files, currentFile := some active, editor := some doc, pyodide := none,
    localStorage := none, console := [], dialogs := [], fileList := [],
    currentFileName := active, sidebarOpen := false, view := .editor, timers := 0 }

/-- A name that is one path segment: not empty, not `.` or `..`, and without `/`. -/
def isSegment (name : String) : Bool :=
  decide (name ≠ "" ∧ name ≠ "." ∧ name ≠ ".." ∧ '/' ∉ name.data)

/-- A sample engine: a working directory holding the files `fs` and no directory. A
write to a name that is one path segment creates or replaces that file; a write to any
other name throws. -/
def flatEngine (fs : Dict) : Pyodide :=
  { Store := Dict
    FS := fs
    writeFile := fun fs name text => if isSegment name then some (fs.set name text) else none
    readFile := fun fs path => fs.get path }

/-- A session whose engine has finished loading: the sample engine over `fs`. -/
def readySession (files : Dict) (active doc : String) (fs : Dict) : State :=
  { session files active doc with pyodide := some (flatEngine fs) }

/-- The filesystem states reached from `fs0` by calls of `writeFile` on names of
`names` that returned. -/
inductive Pyodide.Reaches (py : Pyodide) (names : List String) (fs0 : py.Store) :
    py.Store → Prop where
  | start : Pyodide.Reaches py names fs0 fs0
  | write (fs fs' : py.Store) (n v : String) :
      Pyodide.Reaches py names fs0 fs → n ∈ names → py.writeFile fs n v = some fs' →
      Pyodide.Reaches py names fs0 fs'

/-- The engine treats the names `names` as distinct files: in its present filesystem
state and in every state reached from it by writing to these names, a write to one of them
returns, is read back, and leaves every path that is not the `same` file as it was; and
no two different names of `names` are the `same` file. -/
def Pyodide.CreatesOrOverwrites (py : Pyodide) (same : String → String → Prop)
    (names : List String) : Prop :=
  (∀ fs n v, py.Reaches names py.FS fs → n ∈ names → ∃ fs', py.writeFile fs n v = some fs') ∧
  (∀ fs n v fs', py.Reaches names py.FS fs → n ∈ names → py.writeFile fs n v = some fs' →
    py.readFile fs' n = some v ∧ ∀ p, ¬ same p n → py.readFile fs' p = py.readFile fs p) ∧
  (∀ a ∈ names, ∀ b ∈ names, a ≠ b → ¬ same a b)

/-- Whether a handler ran to its end. -/
def Completion.isNormal : Completion → Bool
  | .normal _ => true
  | _ => false

/-- The invariant together with the absence of a file named `__proto__`. -/
def Safe (s : State) : Prop :=
  Inv s ∧ "__proto__" ∉ Dict.keys s.files

instance (s : State) : Decidable (Safe s) := by
  unfold Safe
  infer_instance

/-! ## Facts about dictionaries -/

theorem Dict.get_set_self (d : Dict) (k v : String) : (d.set k v).get k = some v := by
  induction d with
  | nil => simp [Dict.set, Dict.get]
  | cons p d ih =>
    obtain ⟨k', v'⟩ := p
    by_cases h : k' = k
    · simp [Dict.set, Dict.get, h]
    · simp [Dict.set, Dict.get, h, ih]

theorem Dict.get_set_ne (d : Dict) (k v j : String) (h : j ≠ k) :
    (d.set k v).get j = d.get j := by
  induction d with
  | nil => simp [Dict.set, Dict.get, Ne.symm h]
  | cons p d ih =>
    obtain ⟨k', v'⟩ := p
    by_cases hk : k' = k
    · subst hk
      simp [Dict.set, Dict.get, Ne.symm h]
    · simp [Dict.set, Dict.get, hk, ih]

theorem Dict.mem_keys (d : Dict) (k : String) : k ∈ d.keys ↔ k ∈ d.map Prod.fst := by
  unfold Dict.keys
  simp only [List.mem_append, (List.perm_insertionSort _ _).mem_iff, List.mem_filter]
  cases h : arrayIndex k <;> simp [h]

theorem Dict.get_isSome (d : Dict) (k : String) : (d.get k).isSome ↔ k ∈ d.map Prod.fst := by
  induction d with
  | nil => simp [Dict.get]
  | cons p d ih =>
    obtain ⟨k', v'⟩ := p
    by_cases h : k' = k
    · simp [Dict.get, h]
    · have h' : ¬ k = k' := fun e => h e.symm
      simp [Dict.get, h, h', ih]

theorem Dict.get_of_mem_keys (d : Dict) (k : String) (h : k ∈ d.keys) :
    ∃ v, d.get k = some v := by
  have := (Dict.get_isSome d k).mpr ((Dict.mem_keys d k).mp h)
  exact Option.isSome_iff_exists.mp this

theorem Dict.mem_keys_of_get (d : Dict) (k v : String) (h : d.get k = some v) :
    k ∈ d.keys := by
  rw [Dict.mem_keys, ← Dict.get_isSome, h]
  rfl

theorem Dict.get_eq_none_of_not_mem (d : Dict) (k : String) (h : k ∉ d.keys) :
    d.get k = none := by
  cases hv : d.get k with
  | none => rfl
  | some v => exact absurd (Dict.mem_keys_of_get d k v hv) h

theorem Dict.mem_map_fst_set (d : Dict) (k v j : String) :
    j ∈ (d.set k v).map Prod.fst ↔ j = k ∨ j ∈ d.map Prod.fst := by
  induction d with
  | nil => simp [Dict.set]
  | cons p d ih =>
    obtain ⟨k', v'⟩ := p
    by_cases hk : k' = k
    · subst hk
      simp [Dict.set]
    · simp only [Dict.set, hk, if_false, List.map_cons, List.mem_cons, ih]
      tauto

theorem Dict.mem_keys_set (d : Dict) (k v j : String) :
    j ∈ (d.set k v).keys ↔ j = k ∨ j ∈ d.keys := by
  simp only [Dict.mem_keys, Dict.mem_map_fst_set]

theorem Dict.mem_keys_delete (d : Dict) (k j : String) (h : j ∈ (Dict.delete d k).keys) :
    j ∈ d.keys := by
  rw [Dict.mem_keys] at h ⊢
  unfold Dict.delete at h
  simp only [List.mem_map, List.mem_filter] at h
  obtain ⟨p, ⟨hp, _⟩, rfl⟩ := h
  exact List.mem_map.mpr ⟨p, hp, rfl⟩

theorem Dict.keys_ne_nil_of_mem (d : Dict) (k : String) (h : k ∈ d.keys) : d ≠ [] := by
  intro hnil
  rw [hnil] at h
  simp [Dict.keys] at h

theorem Dict.assign_of_ne (d : Dict) (k v : String) (h : k ≠ "__proto__") :
    d.assign k v = d.set k v := by
  simp [Dict.assign, h]

theorem Dict.read_of_get (d : Dict) (k v : String) (h : d.get k = some v) :
    d.read k = .str v := by
  simp [Dict.read, h]

theorem Dict.mem_entries (d : Dict) (k v : String) :
    (k, v) ∈ d.entries ↔ k ∈ d.keys ∧ d.get k = some v := by
  unfold Dict.entries
  simp only [List.mem_filterMap, Option.map_eq_some', Prod.mk.injEq]
  constructor
  · rintro ⟨a, ha, b, hb, rfl, rfl⟩
    exact ⟨ha, hb⟩
  · rintro ⟨hk, hv⟩
    exact ⟨k, hk, v, hv, rfl, rfl⟩

theorem find_entries (d : Dict) (ks : List String) (k : String) :
    ((ks.filterMap (fun j => (d.get j).map (fun v => (j, v)))).map
        (fun e => (e.1, Json.str e.2))).find? (fun m => m.1 = k)
      = if k ∈ ks then (d.get k).map (fun v => (k, Json.str v)) else none := by
  induction ks with
  | nil => simp
  | cons j rest ih =>
    by_cases hj : j = k
    · subst hj
      cases hv : d.get j with
      | none =>
        simp only [List.filterMap_cons, hv, Option.map_none', List.mem_cons, true_or, if_true]
        rw [ih]
        simp [hv]
      | some v => simp [List.filterMap_cons, hv]
    · have hkj : ¬ k = j := fun e => hj e.symm
      cases hv : d.get j with
      | none =>
        simp only [List.filterMap_cons, hv, Option.map_none', List.mem_cons, hkj, false_or]
        exact ih
      | some v =>
        simp only [List.filterMap_cons, hv, Option.map_some', List.map_cons, List.mem_cons,
          hkj, false_or]
        rw [List.find?_cons_of_neg _ (by simpa using hj)]
        exact ih

theorem member_stringify (d : Dict) (k : String) :
    ∃ v, parseSlot (some (stringify d)) = .ok v ∧ v.member k = (d.get k).map Json.str := by
  refine ⟨_, rfl, ?_⟩
  simp only [Json.member, Dict.entries]
  rw [find_entries]
  by_cases hk : k ∈ d.keys
  · rw [if_pos hk]
    cases d.get k <;> rfl
  · rw [if_neg hk, Dict.get_eq_none_of_not_mem d k hk]
    rfl

theorem normalizeChars_of_no_cr (cs : List Char) (h : '\r' ∉ cs) :
    normalizeChars false cs = cs := by
  induction cs with
  | nil => rfl
  | cons c cs ih =>
    have hc : ¬ c = '\r' := fun e => h (by simp [e])
    have hcs : '\r' ∉ cs := fun e => h (List.mem_cons_of_mem _ e)
    simp [normalizeChars, hc, ih hcs]

theorem normalizeNewlines_of_no_cr (text : String) (h : '\r' ∉ text.data) :
    normalizeNewlines text = text := by
  unfold normalizeNewlines
  rw [normalizeChars_of_no_cr _ h]

theorem Dict.assign_eq_set (d : Dict) (k v : String)
    (h : k ≠ "__proto__" ∨ k ∈ d.keys) : d.assign k v = d.set k v := by
  rcases h with h | h
  · exact Dict.assign_of_ne d k v h
  · obtain ⟨w, hw⟩ := Dict.get_of_mem_keys d k h
    simp [Dict.assign, hw]

/-! ## Facts about the handlers -/

theorem save_of_editor (s : State) (E c : String) (hE : s.editor = some E)
    (hc : s.currentFile = some c) (hk : c ≠ "__proto__" ∨ c ∈ Dict.keys s.files) :
    save s = { s with
      files := s.files.set c E
      localStorage := some (stringify (s.files.set c E)) } := by
  unfold save
  rw [hE]
  simp only [hc, jsString, Dict.assign_eq_set _ _ _ hk]

theorem save_editor (s : State) : (save s).editor = s.editor := by
  unfold save
  split <;> rfl

theorem save_pyodide (s : State) : (save s).pyodide = s.pyodide := by
  unfold save
  split <;> rfl

theorem save_console (s : State) : (save s).console = s.console := by
  unfold save
  split <;> rfl

theorem save_timers (s : State) : (save s).timers = s.timers := by
  unfold save
  split <;> rfl

theorem save_get_active (s : State) (E P : String) (hE : s.editor = some E)
    (hP : s.currentFile = some P) (hk : P ∈ Dict.keys (save s).files) :
    (save s).files.get P = some E := by
  have hf : (save s).files = s.files.assign P E := by
    unfold save
    rw [hE]
    simp only [hP, jsString]
  rw [hf] at hk ⊢
  by_cases hq : P = "__proto__" ∧ s.files.get P = none
  · have hsame : s.files.assign P E = s.files := by
      unfold Dict.assign
      rw [if_pos hq]
    rw [hsame] at hk
    obtain ⟨w, hw⟩ := Dict.get_of_mem_keys _ _ hk
    rw [hq.2] at hw
    cases hw
  · have : s.files.assign P E = s.files.set P E := by
      unfold Dict.assign
      rw [if_neg hq]
    rw [this, Dict.get_set_self]

theorem loadFile_of_key (n : String) (s : State) (E c v : String) (hE : s.editor = some E)
    (hc : s.currentFile = some c) (hk : c ≠ "__proto__" ∨ c ∈ Dict.keys s.files)
    (hv : (s.files.set c E).get n = some v) :
    ∃ s', loadFile (some n) s = .normal s' ∧
      s'.files = s.files.set c E ∧
      s'.currentFile = some n ∧
      s'.editor = some (normalizeNewlines v) ∧
      s'.localStorage = some (stringify (s.files.set c E)) := by
  refine ⟨toggleSidebar (renderFileList { save s with
      currentFile := some n
      editor := some (normalizeNewlines v) }), ?_, ?_⟩
  · have hr : (save s).files.read n = .str v := by
      rw [save_of_editor s E c hE hc hk]
      exact Dict.read_of_get _ _ _ hv
    simp [loadFile, setEditorContent, save_editor, hE, Completion.andThen, jsString, hr]
  · simp [toggleSidebar, renderFileList, save_of_editor s E c hE hc hk]

theorem safe_of_key (s : State) (c E : String) (hE : s.editor = some E)
    (hc : s.currentFile = some c) (hk : c ∈ Dict.keys s.files)
    (hp : "__proto__" ∉ Dict.keys s.files) : Safe s := by
  refine ⟨⟨by simp [hE], Dict.keys_ne_nil_of_mem _ _ hk, ?_⟩, hp⟩
  unfold activeIsKey
  rw [hc]
  exact hk

theorem safe_elim (s : State) (h : Safe s) :
    ∃ c E, s.editor = some E ∧ s.currentFile = some c ∧ c ∈ Dict.keys s.files ∧
      c ≠ "__proto__" ∧ "__proto__" ∉ Dict.keys s.files := by
  obtain ⟨⟨hE, _, hk⟩, hp⟩ := h
  unfold activeIsKey at hk
  cases hc : s.currentFile with
  | none => simp [hc] at hk
  | some c =>
    cases hd : s.editor with
    | none => simp [hd] at hE
    | some E =>
      rw [hc] at hk
      exact ⟨c, E, rfl, rfl, hk, fun e => hp (e ▸ hk), hp⟩

theorem loadFile_safe (n : String) (s : State) (h : Safe s) (hn : n ∈ Dict.keys s.files) :
    ∃ s', loadFile (some n) s = .normal s' ∧ Safe s' := by
  obtain ⟨c, E, hE, hc, hk, hcp, hp⟩ := safe_elim s h
  have hn' : n ∈ Dict.keys (s.files.set c E) := (Dict.mem_keys_set _ _ _ _).mpr (Or.inr hn)
  obtain ⟨v, hv⟩ := Dict.get_of_mem_keys _ _ hn'
  obtain ⟨s', hs, hf, hcur, he, _⟩ := loadFile_of_key n s E c v hE hc (Or.inl hcp) hv
  refine ⟨s', hs, safe_of_key s' n _ he hcur ?_ ?_⟩
  · rw [hf]
    exact hn'
  · rw [hf, Dict.mem_keys_set]
    rintro (e | e)
    · exact hcp e.symm
    · exact hp e

theorem createNewFile_safe (answer : Option String) (s : State) (h : Safe s)
    (ha : answer ≠ some "__proto__") :
    ∃ s', createNewFile answer s = .normal s' ∧ Safe s' := by
  obtain ⟨c, E, hE, hc, hk, hcp, hp⟩ := safe_elim s h
  unfold createNewFile
  cases answer with
  | none => exact ⟨_, rfl, safe_of_key _ c E hE hc hk hp⟩
  | some name =>
    by_cases hname : name = ""
    · simp only [hname, ne_eq, not_true_eq_false, if_false]
      exact ⟨_, rfl, safe_of_key _ c E hE hc hk hp⟩
    · have hnp : name ≠ "__proto__" := fun e => ha (by rw [e])
      simp only [ne_eq, hname, not_false_eq_true, if_true]
      apply loadFile_safe name
      · refine safe_of_key _ c E (by rw [save_editor]; exact hE) ?_ ?_ ?_
        · simp [save, hE, hc]
        · simp [save, hE, hc, jsString, Dict.assign_of_ne _ _ _ hcp, Dict.mem_keys_set]
        · simp only [save, hE, hc, jsString, Dict.assign_of_ne _ _ _ hcp,
            Dict.assign_of_ne _ _ _ hnp, Dict.mem_keys_set]
          rintro (e | e | e)
          · exact hcp e.symm
          · exact hnp e.symm
          · exact hp e
      · simp [save, hE, hc, jsString, Dict.assign_of_ne _ _ _ hcp,
          Dict.assign_of_ne _ _ _ hnp, Dict.mem_keys_set]

theorem deleteFile_safe (name : String) (answer : Bool) (s : State) (h : Safe s) :
    ∃ s', deleteFile name answer s = .normal s' ∧ Safe s' := by
  obtain ⟨c, E, hE, hc, hk, hcp, hp⟩ := safe_elim s h
  have hp' : "__proto__" ∉ Dict.keys ((Dict.delete s.files name).set c E) := by
    rw [Dict.mem_keys_set]
    rintro (e | e)
    · exact hcp e.symm
    · exact hp (Dict.mem_keys_delete _ _ _ e)
  have hc' : c ∈ Dict.keys ((Dict.delete s.files name).set c E) :=
    (Dict.mem_keys_set _ _ _ _).mpr (Or.inl rfl)
  unfold deleteFile
  cases answer with
  | false => exact ⟨_, rfl, safe_of_key _ c E hE hc hk hp⟩
  | true =>
    simp only [if_true, save, hE, hc, jsString, Dict.assign_of_ne _ _ _ hcp]
    by_cases hcn : c = name
    · subst hcn
      simp only [if_true]
      obtain ⟨k, hk'⟩ : ∃ k, (Dict.keys (Dict.set (Dict.delete s.files c) c E)).head? = some k := by
        cases hl : Dict.keys (Dict.set (Dict.delete s.files c) c E) with
        | nil =>
          rw [hl] at hc'
          simp at hc'
        | cons k l => exact ⟨k, rfl⟩
      rw [hk']
      apply loadFile_safe k
      · exact safe_of_key _ c E rfl rfl hc' hp'
      · exact List.mem_of_mem_head? hk'
    · have : ¬ (some c = some name) := by simpa using hcn
      simp only [this, if_false]
      exact ⟨_, rfl, safe_of_key _ c E rfl rfl hc' hp'⟩

theorem step_safe (a : Action) (s : State) (h : Safe s) (ha : a.admitted s) :
    ∃ s', step a s = .normal s' ∧ Safe s' := by
  cases a with
  | createNewFile answer => exact createNewFile_safe answer s h ha
  | deleteFile name answer => exact deleteFile_safe name answer s h
  | loadFile name => exact loadFile_safe name s h ha

theorem runActions_safe (acts : List Action) (s : State) (h : Safe s)
    (ha : Admitted acts s) : ∃ s', runActions acts s = .normal s' ∧ Safe s' := by
  induction acts generalizing s with
  | nil => exact ⟨s, rfl, h⟩
  | cons a rest ih =>
    obtain ⟨s1, hs1, hsafe1⟩ := step_safe a s h ha.1
    have hrest : Admitted rest s1 := by
      have := ha.2
      rw [hs1] at this
      exact this
    obtain ⟨s2, hs2, hsafe2⟩ := ih s1 hsafe1 hrest
    refine ⟨s2, ?_, hsafe2⟩
    show (step a s).andThen (runActions rest) = .normal s2
    rw [hs1]
    exact hs2

/-! ## Facts about the engine -/

theorem syncFiles_spec (py : Pyodide) (same : String → String → Prop) (names : List String)
    (hpy : py.CreatesOrOverwrites same names) (L : List (String × String))
    (hL : ∀ e ∈ L, e.1 ∈ names) (hval : ∀ e ∈ L, ∀ e' ∈ L, e.1 = e'.1 → e.2 = e'.2)
    (fs : py.Store) (hfs : py.Reaches names py.FS fs) :
    ∃ fs', syncFiles py L fs = .ok fs' ∧
      (∀ e ∈ L, py.readFile fs' e.1 = some e.2) ∧
      (∀ p, (∀ e ∈ L, ¬ same p e.1) → py.readFile fs' p = py.readFile fs p) := by
  induction L generalizing fs with
  | nil => exact ⟨fs, rfl, by simp, fun _ _ => rfl⟩
  | cons e rest ih =>
    obtain ⟨n, v⟩ := e
    obtain ⟨hacc, hlaw, hdist⟩ := hpy
    have hn : n ∈ names := hL (n, v) (List.mem_cons_self _ _)
    obtain ⟨fs1, hw⟩ := hacc fs n v hfs hn
    obtain ⟨hread, hframe⟩ := hlaw fs n v fs1 hfs hn hw
    obtain ⟨fs', hsync, hall, hfr⟩ := ih
      (fun e he => hL e (List.mem_cons_of_mem _ he))
      (fun e he e' he' => hval e (List.mem_cons_of_mem _ he) e' (List.mem_cons_of_mem _ he'))
      fs1 (Pyodide.Reaches.write fs fs1 n v hfs hn hw)
    refine ⟨fs', ?_, ?_, ?_⟩
    · simp only [syncFiles, hw]
      exact hsync
    · intro e he
      rcases List.mem_cons.mp he with rfl | he
      · by_cases hex : ∃ e' ∈ rest, e'.1 = n
        · obtain ⟨e', he', hn'⟩ := hex
          have hv : v = e'.2 :=
            hval (n, v) (List.mem_cons_self _ _) e' (List.mem_cons_of_mem _ he') hn'.symm
          have := hall e' he'
          rw [hn'] at this
          rw [hv]
          exact this
        · have hno : ∀ e' ∈ rest, ¬ same n e'.1 := by
            intro e' he'
            have hne : n ≠ e'.1 := fun h => hex ⟨e', he', h.symm⟩
            exact hdist n hn e'.1 (hL e' (List.mem_cons_of_mem _ he')) hne
          show py.readFile fs' n = some v
          rw [hfr n hno]
          exact hread
      · exact hall e he
    · intro p hp
      rw [hfr p (fun e he => hp e (List.mem_cons_of_mem _ he))]
      exact hframe p (hp (n, v) (List.mem_cons_self _ _))

theorem flatEngine_createsOrOverwrites (fs : Dict) (names : List String)
    (h : ∀ n ∈ names, isSegment n = true) :
    (flatEngine fs).CreatesOrOverwrites (fun a b => a = b) names := by
  refine ⟨?_, ?_, ?_⟩
  · intro d n v _ hn
    exact ⟨Dict.set d n v, by simp [flatEngine, h n hn]⟩
  · intro d n v d' _ hn hw
    have hd : d' = Dict.set d n v := by
      simp only [flatEngine, h n hn, if_true, Option.some.injEq] at hw
      exact hw.symm
    subst hd
    exact ⟨Dict.get_set_self d n v, fun p hp => Dict.get_set_ne d n v p hp⟩
  · intro a _ b _ hab
    exact hab

/-! ## The claims -/

/-- C1, as stated, fails: from a state satisfying the invariant, `loadFile` called with a
name that is not a key of `files` leaves `currentFile` pointing at no file; and
`createNewFile` answered `__proto__` creates no entry, since the assignment to that name
is swallowed by the inherited setter, yet makes it the value of `currentFile`; and when
the only file is an own key `__proto__`, deleting it leaves `files` empty, since the
flush in `save` cannot create it again. -/
theorem loadFile_missing_breaks_invariant :
    Inv (session [("main.py", "a")] "main.py" "a") ∧
      (runActions [.loadFile "ghost.py"] (session [("main.py", "a")] "main.py" "a")).state.currentFile
        = some "ghost.py" ∧
      (runActions [.loadFile "ghost.py"] (session [("main.py", "a")] "main.py" "a")).state.files
        = [("main.py", "a")] ∧
      ¬ Inv (runActions [.loadFile "ghost.py"] (session [("main.py", "a")] "main.py" "a")).state ∧
      (runActions [.createNewFile (some "__proto__")]
        (session [("main.py", "a")] "main.py" "a")).state.currentFile = some "__proto__" ∧
      (runActions [.createNewFile (some "__proto__")]
        (session [("main.py", "a")] "main.py" "a")).state.files = [("main.py", "a")] ∧
      ¬ Inv (runActions [.createNewFile (some "__proto__")]
        (session [("main.py", "a")] "main.py" "a")).state ∧
      Inv (session [("__proto__", "x")] "__proto__" "x") ∧
      (runActions [.deleteFile "__proto__" true]
        (session [("__proto__", "x")] "__proto__" "x")).state.files = [] ∧
      ¬ Inv (runActions [.deleteFile "__proto__" true]
        (session [("__proto__", "x")] "__proto__" "x")).state := by
  decide

/-- C1, amended: starting from a state in which the editor is initialised, `files` is
non-empty and has no key `__proto__`, and `currentFile` is a key of `files`, every finite
sequence of `createNewFile` (any prompted name other than `__proto__`, including none),
`deleteFile` (any name, confirmed or declined) and `loadFile` calls in which each
`loadFile` names a file existing at the time of the call runs to completion and ends in a
state where the editor is initialised, `files` is non-empty, still without a key
`__proto__`, and `currentFile` is a key of `files`. -/
theorem invariant_preserved (acts : List Action) (s : State) (h : Inv s)
    (hp : "__proto__" ∉ Dict.keys s.files) (ha : Admitted acts s) :
    ∃ s', runActions acts s = .normal s' ∧ Inv s' ∧ "__proto__" ∉ Dict.keys s'.files := by
  obtain ⟨s', hs', hsafe⟩ := runActions_safe acts s ⟨h, hp⟩ ha
  exact ⟨s', hs', hsafe.1, hsafe.2⟩

/-- Witness for C1: a concrete session and a concrete sequence of calls. -/
theorem invariant_preserved_witness :
    Inv (session [("main.py", "a")] "main.py" "a") ∧
      "__proto__" ∉ Dict.keys (session [("main.py", "a")] "main.py" "a").files ∧
      Admitted
        [.createNewFile (some "data.py"), .loadFile "main.py", .deleteFile "data.py" true,
          .createNewFile none, .deleteFile "main.py" true]
        (session [("main.py", "a")] "main.py" "a") ∧
      ∃ s',
        runActions
          [.createNewFile (some "data.py"), .loadFile "main.py", .deleteFile "data.py" true,
            .createNewFile none, .deleteFile "main.py" true]
          (session [("main.py", "a")] "main.py" "a") = .normal s' ∧
        Inv s' ∧ "__proto__" ∉ Dict.keys s'.files :=
  ⟨by decide, by decide, by decide, invariant_preserved _ _ (by decide) (by decide) (by decide)⟩

/-- C2 at a failing input: `main.py` and `x.py` exist and `x.py` is the active file; a
confirmed `deleteFile('main.py')` removes the `main.py` entry, although `renderFileList`
withholds the delete control from the `main.py` row. -/
theorem deleteFile_main_confirmed_removes :
    (session [("main.py", "a"), ("x.py", "b")] "x.py" "b").files.get "main.py" = some "a" ∧
      (deleteFile "main.py" true
        (session [("main.py", "a"), ("x.py", "b")] "x.py" "b")).state.files = [("x.py", "b")] ∧
      (deleteFile "main.py" true
        (session [("main.py", "a"), ("x.py", "b")] "x.py" "b")).state.files.get "main.py" = none ∧
      (∀ item ∈ (renderFileList
          (session [("main.py", "a"), ("x.py", "b")] "x.py" "b")).fileList,
        item.name = "main.py" → item.hasDelete = false) := by
  decide

/-- C3 at a failing input: `main.py` holds `print(1)`, is the active file and is shown in
the editor; importing a file `main.py` with text `print(2)` and confirming the overwrite
ends with `files["main.py"]` and the editor both still `print(1)`: the flush in `save`
writes the editor text over the imported text. -/
theorem importFile_over_active_file_is_lost :
    (importFileOnload "main.py" "print(2)" true
        (session [("main.py", "print(1)")] "main.py" "print(1)")).state.dialogs
        = [.confirm "Overwrite main.py?"] ∧
      (importFileOnload "main.py" "print(2)" true
        (session [("main.py", "print(1)")] "main.py" "print(1)")).state.files
        = [("main.py", "print(1)")] ∧
      (importFileOnload "main.py" "print(2)" true
        (session [("main.py", "print(1)")] "main.py" "print(1)")).state.currentFile
        = some "main.py" ∧
      (importFileOnload "main.py" "print(2)" true
        (session [("main.py", "print(1)")] "main.py" "print(1)")).state.editor
        = some "print(1)" := by
  decide

/-- C4, as stated, fails: with the engine not loaded, the single console entry `runCode`
appends carries the error flag and not the system flag. -/
theorem runCode_not_ready_entry_is_error :
    (session [("main.py", "print(1)")] "main.py" "print(1)").pyodide = none ∧
      (runCode (session [("main.py", "print(1)")] "main.py" "print(1)")).state.console
        = [{ text := ">> Loading Engine...", isError := true, isSystem := false }] ∧
      ∀ e ∈ (runCode (session [("main.py", "print(1)")] "main.py" "print(1)")).state.console,
        e.isSystem = false :=
  ⟨rfl, by decide, by decide⟩

/-- C4, amended: for every run request made while `app.pyodide` is null, `runCode`
returns after appending exactly one console entry, that entry is of kind error (error
flag set, system flag clear), the engine handle stays null, so no write reaches a virtual
filesystem, and no execution is scheduled. -/
theorem runCode_not_ready (s : State) (h : s.pyodide = none) :
    ∃ s', runCode s = .normal s' ∧
      s'.console
        = s.console ++ [{ text := ">> Loading Engine...", isError := true, isSystem := false }] ∧
      s'.pyodide = none ∧ s'.timers = s.timers := by
  have hp : (switchView .terminal (save s)).pyodide = none := by
    simp [switchView, save_pyodide, h]
  refine ⟨log ">> Loading Engine..." true false (switchView .terminal (save s)), ?_, ?_, ?_, ?_⟩
  · unfold runCode
    simp only [hp]
  · simp [log, switchView, save_console]
  · simp [log, switchView, save_pyodide, h]
  · simp [log, switchView, save_timers]

/-- Witness for C4: a session whose engine has not loaded. -/
theorem runCode_not_ready_witness :
    (session [("main.py", "print(1)")] "main.py" "print(1)").pyodide = none ∧
      ∃ s', runCode (session [("main.py", "print(1)")] "main.py" "print(1)") = .normal s' ∧
        s'.console
          = (session [("main.py", "print(1)")] "main.py" "print(1)").console
            ++ [{ text := ">> Loading Engine...", isError := true, isSystem := false }] ∧
        s'.pyodide = none ∧
        s'.timers = (session [("main.py", "print(1)")] "main.py" "print(1)").timers :=
  ⟨rfl, runCode_not_ready _ rfl⟩

/-- C5, as stated, fails: with an engine whose working directory has no directory `pkg`,
the write of the project file `pkg/mod.py` throws; the loop stops there, so the later file
`z.py` never reaches the filesystem, `runCode` ends by the exception after the `Syncing`
line, and nothing is scheduled. -/
theorem runCode_sync_stops_at_rejected_name :
    (readySession [("main.py", "m"), ("pkg/mod.py", "p"), ("z.py", "z")] "main.py" "m"
        []).files.get "z.py" = some "z" ∧
      (runCode (readySession [("main.py", "m"), ("pkg/mod.py", "p"), ("z.py", "z")]
        "main.py" "m" [])).isNormal = false ∧
      (runCode (readySession [("main.py", "m"), ("pkg/mod.py", "p"), ("z.py", "z")]
        "main.py" "m" [])).state.pyodide.map (fun py => py.fileAt "main.py") = some (some "m") ∧
      (runCode (readySession [("main.py", "m"), ("pkg/mod.py", "p"), ("z.py", "z")]
        "main.py" "m" [])).state.pyodide.map (fun py => py.fileAt "z.py") = some none ∧
      (runCode (readySession [("main.py", "m"), ("pkg/mod.py", "p"), ("z.py", "z")]
        "main.py" "m" [])).state.console
        = [{ text := ">> Syncing Files...", isError := false, isSystem := true }] ∧
      (runCode (readySession [("main.py", "m"), ("pkg/mod.py", "p"), ("z.py", "z")]
        "main.py" "m" [])).state.timers = 0 := by
  decide

/-- C5, amended: for every run request with the engine ready, every prior virtual
filesystem and every project whose file names (the keys of `files` after the initial
flush) the engine takes as distinct files, meaning that `FS.writeFile` on each of them
returns, is read back, and leaves alone every path that is not the same file: the sync
step of `runCode` completes, `files` is the flushed mapping, the filesystem maps each key
of `files` to the content `files` holds after the flush (so the active file, when it is a
key, maps to the editor content), and every path that is the same file as no key of
`files` reads as it did before. -/
theorem runCode_sync (s : State) (py : Pyodide) (same : String → String → Prop)
    (h : s.pyodide = some py)
    (hpy : py.CreatesOrOverwrites same (Dict.keys (save s).files)) :
    ∃ s' fs', runCode s = .normal s' ∧
      s'.pyodide = some (py.withFS fs') ∧
      s'.files = (save s).files ∧
      (∀ name ∈ Dict.keys (save s).files,
        (py.withFS fs').fileAt name = (save s).files.get name) ∧
      (∀ E P, s.editor = some E → s.currentFile = some P → P ∈ Dict.keys (save s).files →
        (py.withFS fs').fileAt P = some E) ∧
      (∀ path, (∀ name ∈ Dict.keys (save s).files, ¬ same path name) →
        (py.withFS fs').fileAt path = py.fileAt path) := by
  have hp : (log ">> Syncing Files..." false true (switchView .terminal (save s))).pyodide
      = some py := by
    simp [log, switchView, save_pyodide, h]
  obtain ⟨fs', hsync, hall, hframe⟩ := syncFiles_spec py same _ hpy
    (Dict.entries (save s).files)
    (fun e he => ((Dict.mem_entries _ e.1 e.2).mp he).1)
    (fun e he e' he' hee => by
      have h1 := ((Dict.mem_entries _ e.1 e.2).mp he).2
      have h2 := ((Dict.mem_entries _ e'.1 e'.2).mp he').2
      rw [hee, h2] at h1
      exact (Option.some.inj h1).symm)
    py.FS Pyodide.Reaches.start
  have hkey : ∀ name ∈ Dict.keys (save s).files,
      py.readFile fs' name = (save s).files.get name := by
    intro name hname
    obtain ⟨v, hv⟩ := Dict.get_of_mem_keys _ _ hname
    rw [hv]
    exact hall (name, v) ((Dict.mem_entries _ name v).mpr ⟨hname, hv⟩)
  have hrun : runCode s = .normal
      { log (">> Running " ++ jsString (save s).currentFile ++ "...") false true
          { log ">> Syncing Files..." false true (switchView .terminal (save s)) with
            pyodide := some (py.withFS fs') } with
        timers := (save s).timers + 1 } := by
    have hp' : (switchView .terminal (save s)).pyodide = some py := by
      simp [switchView, save_pyodide, h]
    have hfiles : (log ">> Syncing Files..." false true
        (switchView .terminal (save s))).files = (save s).files := rfl
    unfold runCode
    simp only [hp', hfiles, hsync]
    rfl
  refine ⟨_, fs', hrun, rfl, rfl, hkey, ?_, ?_⟩
  · intro E P hE hP hk
    show py.readFile fs' P = some E
    rw [hkey P hk]
    exact save_get_active s E P hE hP hk
  · intro path hpath
    exact hframe path (fun e he => hpath e.1 ((Dict.mem_entries _ e.1 e.2).mp he).1)

/-- Witness for C5: a ready session whose filesystem holds a stale file and an outdated
copy of the active file; all project names are single path segments. -/
theorem runCode_sync_witness :
    (readySession [("main.py", "old"), ("util.py", "u")] "main.py" "new"
        [("gone.py", "g"), ("main.py", "older")]).pyodide
        = some (flatEngine [("gone.py", "g"), ("main.py", "older")]) ∧
      (flatEngine [("gone.py", "g"), ("main.py", "older")]).CreatesOrOverwrites
        (fun a b => a = b)
        (Dict.keys (save (readySession [("main.py", "old"), ("util.py", "u")] "main.py" "new"
          [("gone.py", "g"), ("main.py", "older")])).files) ∧
      ∃ s' fs',
        runCode (readySession [("main.py", "old"), ("util.py", "u")] "main.py" "new"
          [("gone.py", "g"), ("main.py", "older")]) = .normal s' ∧
        s'.pyodide = some ((flatEngine [("gone.py", "g"), ("main.py", "older")]).withFS fs') ∧
        ((flatEngine [("gone.py", "g"), ("main.py", "older")]).withFS fs').fileAt "main.py"
          = some "new" ∧
        ((flatEngine [("gone.py", "g"), ("main.py", "older")]).withFS fs').fileAt "util.py"
          = some "u" ∧
        ((flatEngine [("gone.py", "g"), ("main.py", "older")]).withFS fs').fileAt "gone.py"
          = some "g" := by
  have hpy := flatEngine_createsOrOverwrites [("gone.py", "g"), ("main.py", "older")]
    (Dict.keys (save (readySession [("main.py", "old"), ("util.py", "u")] "main.py" "new"
      [("gone.py", "g"), ("main.py", "older")])).files) (by decide)
  refine ⟨rfl, hpy, ?_⟩
  obtain ⟨s', fs', h1, h2, _, h3, h4, h5⟩ :=
    runCode_sync (readySession [("main.py", "old"), ("util.py", "u")] "main.py" "new"
      [("gone.py", "g"), ("main.py", "older")]) _ (fun a b => a = b) rfl hpy
  refine ⟨s', fs', h1, h2, ?_, ?_, ?_⟩
  · exact h4 "new" "main.py" rfl rfl (by decide)
  · rw [h3 "util.py" (by decide)]
    decide
  · rw [h5 "gone.py" (by decide)]
    rfl

/-- C6 at a failing input: `x.py` is the active file and is shown in the editor; after a
confirmed `deleteFile('x.py')` the name `x.py` is still a key of `files`, with the editor
text as content, because `save` runs while `currentFile` is still `x.py`; `currentFile`
becomes `main.py`. -/
theorem deleteFile_active_file_survives :
    (deleteFile "x.py" true
        (session [("main.py", "a"), ("x.py", "b")] "x.py" "b")).state.files
        = [("main.py", "a"), ("x.py", "b")] ∧
      (deleteFile "x.py" true
        (session [("main.py", "a"), ("x.py", "b")] "x.py" "b")).state.files.get "x.py"
        = some "b" ∧
      (deleteFile "x.py" true
        (session [("main.py", "a"), ("x.py", "b")] "x.py" "b")).state.currentFile
        = some "main.py" := by
  decide

/-- C7 at a failing input: `main.py` (content `a`) and `x.py` exist and `x.py` is the
active file; `createNewFile` answered `main.py` shows no further dialog, replaces the
stored content of `main.py` by the placeholder and makes it the active file. -/
theorem createNewFile_existing_overwrites :
    (session [("main.py", "a"), ("x.py", "b")] "x.py" "b").files.get "main.py" = some "a" ∧
      (createNewFile (some "main.py")
        (session [("main.py", "a"), ("x.py", "b")] "x.py" "b")).state.dialogs
        = [.prompt "File Name (e.g. data.py):"] ∧
      (createNewFile (some "main.py")
        (session [("main.py", "a"), ("x.py", "b")] "x.py" "b")).state.files
        = [("main.py", "# New File"), ("x.py", "b")] ∧
      (createNewFile (some "main.py")
        (session [("main.py", "a"), ("x.py", "b")] "x.py" "b")).state.currentFile
        = some "main.py" := by
  decide

/-- C8 at a failing input: `notes.py` exists with empty content and is not the active
file; importing a file `notes.py` shows no confirmation dialog at all (the existence test
reads the empty content as false), overwrites the entry and makes it the active file, even
though the user would have declined. -/
theorem importFile_over_empty_file_skips_confirm :
    (session [("main.py", "a"), ("notes.py", "")] "main.py" "a").files.get "notes.py"
        = some "" ∧
      (importFileOnload "notes.py" "x = 1" false
        (session [("main.py", "a"), ("notes.py", "")] "main.py" "a")).state.dialogs = [] ∧
      (importFileOnload "notes.py" "x = 1" false
        (session [("main.py", "a"), ("notes.py", "")] "main.py" "a")).state.files
        = [("main.py", "a"), ("notes.py", "x = 1")] ∧
      (importFileOnload "notes.py" "x = 1" false
        (session [("main.py", "a"), ("notes.py", "")] "main.py" "a")).state.currentFile
        = some "notes.py" := by
  decide

/-- C9 at failing inputs: a slot holding text that is not JSON makes the startup load
throw a syntax error, and a slot holding the empty object yields the empty mapping, not
the default project; an absent slot does yield the default project, and a slot holding
any object yields that object. -/
theorem loadFiles_corrupt_slot :
    loadFiles (some .malformed) = .error .syntaxError ∧
      loadFiles (some (.json (.obj []))) = .ok (.obj []) ∧
      loadFiles none = .ok defaultFilesValue ∧
      ∀ members, loadFiles (some (.json (.obj members))) = .ok (.obj members) :=
  ⟨rfl, rfl, rfl, fun _ => rfl⟩

/-- C10, as stated, fails: `x.py` is stored with a Windows line break and `main.py` is
active; after `loadFile('x.py')` the editor does not show the stored text of `x.py` but
that text with the line break turned into a line feed. -/
theorem loadFile_normalizes_line_breaks :
    (session [("main.py", "a"), ("x.py", "p\r\nq")] "main.py" "a").files.get "x.py"
        = some "p\r\nq" ∧
      (loadFile (some "x.py")
        (session [("main.py", "a"), ("x.py", "p\r\nq")] "main.py" "a")).state.editor
        = some "p\nq" ∧
      (loadFile (some "x.py")
        (session [("main.py", "a"), ("x.py", "p\r\nq")] "main.py" "a")).state.editor
        ≠ (session [("main.py", "a"), ("x.py", "p\r\nq")] "main.py" "a").files.get "x.py" := by
  decide

/-- C10, amended: for every project state with the editor initialised and showing `E`,
active file `P` (a key of `files`, or at least not the name `__proto__`) and existing
file `N` different from `P` with content `v`: `loadFile(N)` completes, `files[P]` equals
`E`, `currentFile` equals `N`, the editor shows `v` with every `\r\n` and `\r` turned into
`\n` (so `v` itself when it holds no carriage return), every file other than `P` reads as
before, and the stored slot holds the serialisation of the resulting `files`, which parses
back to an object whose member under each name is the content `files` holds under it. -/
theorem loadFile_flushes (s : State) (E N P v : String) (hE : s.editor = some E)
    (hP : s.currentFile = some P) (hPk : P ≠ "__proto__" ∨ P ∈ Dict.keys s.files)
    (hN : s.files.get N = some v) (hNP : N ≠ P) :
    ∃ s', loadFile (some N) s = .normal s' ∧
      s'.files.get P = some E ∧
      s'.currentFile = some N ∧
      s'.editor = some (normalizeNewlines v) ∧
      ('\r' ∉ v.data → s'.editor = some v) ∧
      (∀ k, k ≠ P → s'.files.get k = s.files.get k) ∧
      s'.files = s.files.set P E ∧
      s'.localStorage = some (stringify (s.files.set P E)) ∧
      ∃ j, parseSlot s'.localStorage = .ok j ∧
        ∀ k, j.member k = (s'.files.get k).map Json.str := by
  have hv : (s.files.set P E).get N = some v := by
    rw [Dict.get_set_ne _ _ _ _ hNP, hN]
  obtain ⟨s', hs', hf, hc, he, hl⟩ := loadFile_of_key N s E P v hE hP hPk hv
  refine ⟨s', hs', ?_, hc, he, ?_, ?_, hf, hl, ?_⟩
  · rw [hf, Dict.get_set_self]
  · intro hcr
    rw [he, normalizeNewlines_of_no_cr v hcr]
  · intro k hk
    rw [hf, Dict.get_set_ne _ _ _ _ hk]
  · obtain ⟨j, hj, _⟩ := member_stringify (s.files.set P E) N
    refine ⟨j, by rw [hl]; exact hj, fun k => ?_⟩
    obtain ⟨j', hj', hm⟩ := member_stringify (s.files.set P E) k
    rw [hj] at hj'
    cases hj'
    rw [hf]
    exact hm

/-- Witness for C10: switching from `main.py`, edited to `a2`, to `x.py`. -/
theorem loadFile_flushes_witness :
    (session [("main.py", "a"), ("x.py", "b")] "main.py" "a2").editor = some "a2" ∧
      (session [("main.py", "a"), ("x.py", "b")] "main.py" "a2").currentFile = some "main.py" ∧
      ("main.py" ≠ "__proto__" ∨
        "main.py" ∈ Dict.keys (session [("main.py", "a"), ("x.py", "b")] "main.py" "a2").files) ∧
      (session [("main.py", "a"), ("x.py", "b")] "main.py" "a2").files.get "x.py" = some "b" ∧
      "x.py" ≠ "main.py" ∧
      ∃ s', loadFile (some "x.py")
          (session [("main.py", "a"), ("x.py", "b")] "main.py" "a2") = .normal s' ∧
        s'.files.get "main.py" = some "a2" ∧
        s'.currentFile = some "x.py" ∧
        s'.editor = some (normalizeNewlines "b") ∧
        ('\r' ∉ "b".data → s'.editor = some "b") ∧
        (∀ k, k ≠ "main.py" → s'.files.get k
          = (session [("main.py", "a"), ("x.py", "b")] "main.py" "a2").files.get k) ∧
        s'.files = (session [("main.py", "a"), ("x.py", "b")] "main.py" "a2").files.set
          "main.py" "a2" ∧
        s'.localStorage = some (stringify
          ((session [("main.py", "a"), ("x.py", "b")] "main.py" "a2").files.set
            "main.py" "a2")) ∧
        ∃ j, parseSlot s'.localStorage = .ok j ∧
          ∀ k, j.member k = (s'.files.get k).map Json.str :=
  ⟨rfl, rfl, by decide, by decide, by decide,
    loadFile_flushes (session [("main.py", "a"), ("x.py", "b")] "main.py" "a2")
      "a2" "x.py" "main.py" "b" rfl rfl (by decide) (by decide) (by decide)⟩

end WebPythonIDE
